import Mathlib

/-!
A shallow embedding of libvips' asynchronous screen sink
(`src/libvips/iofuncs/sinkscreen.c`) and proofs about its tile cache,
replacement policy, request path, scheduler queue and worker allocator.

Modelling conventions:
* C `int` values (coordinates, ticks, tile counts, priorities) are `Int`;
  C integer division truncates toward zero, which is `Int.tdiv`.
* Tiles are mutable heap objects shared between `all`, `dirty` and the
  `tiles` hash; we give each tile a numeric id, keep a `store : Nat → Tile`
  map from ids to current tile values, and let `all`, `dirty` and `tiles`
  hold ids.  The GHashTable keyed on `&tile->area` (with `tile_equal`
  comparing `left`/`top` only) becomes an association list keyed by the
  tile's area; in the C code a tile's `area` is only ever changed together
  with a fresh `g_hash_table_insert` under the new area, so value keys are
  faithful to the pointer keys.
* The producer image (`render->in`), its pixel contents and the outcome of
  its `prepare` operation are external collaborators; they are carried on
  the render as the environment functions `in_pix` (pixel values) and
  `prep_ok` (whether `prepare` succeeds on a rectangle).
* Allocation outcomes (`im_malloc`, `im_region_create`, `im_region_buffer`)
  are external events, passed in explicitly (`AllocEv`, `bufOk`).
-/

namespace SinkScreen

/-- `Rect` from vips: left/top/width/height, C ints. -/
structure Rect where
  left : Int
  top : Int
  width : Int
  height : Int
deriving Repr, DecidableEq

/-- `IM_RECT_RIGHT`. -/
def Rect.right (r : Rect) : Int := r.left + r.width

/-- `IM_RECT_BOTTOM`. -/
def Rect.bottom (r : Rect) : Int := r.top + r.height

/-- Modelled from the spec: `im_rect_isempty` (rect helpers live outside
`src/`): a rect is empty iff its width or height is not positive. -/
def Rect.isEmpty (r : Rect) : Bool := r.width ≤ 0 || r.height ≤ 0

/-- Modelled from the spec: `im_rect_intersectrect` ("intersects `tile.area`
with `output.valid`", spec 4.3): pointwise intersection, with the size
clamped at zero when the rects do not meet. -/
def rectIntersect (a b : Rect) : Rect :=
  { left := max a.left b.left
    top := max a.top b.top
    width := max 0 (min a.right b.right - max a.left b.left)
    height := max 0 (min a.bottom b.bottom - max a.top b.top) }

/-- Membership of a point in a rect, as a decidable Bool. -/
def inRectB (r : Rect) (x y : Int) : Bool :=
  r.left ≤ x && x < r.right && r.top ≤ y && y < r.bottom

/-- `tile_equal`: the hash compares grid position (`left`, `top`) only. -/
def tileEqual (a b : Rect) : Bool := a.left == b.left && a.top == b.top

/-- A pixel region: its valid rectangle, its pixel contents (one abstract
pel per coordinate) and the externally settable `invalid` flag. -/
structure Region where
  valid : Rect
  pix : Int → Int → Nat
  invalid : Bool

/-- Modelled from the spec: `im_region_create(render->in)` gives a freshly
allocated region over the producer image with no laid-out contents yet
(spec 4.1: "a freshly allocated pixel region"). -/
def freshRegion : Region :=
  { valid := ⟨0, 0, 0, 0⟩, pix := fun _ _ => 0, invalid := false }

/-- Modelled from the spec: `im_region_paint(reg, r, value)` paints `value`
over the part of `r` that lies inside the region's valid rectangle. -/
def imRegionPaint (reg : Region) (rc : Rect) (v : Nat) : Region :=
  { reg with pix := fun x y =>
      if inRectB (rectIntersect rc reg.valid) x y then v else reg.pix x y }

/-- Modelled from the spec: `im_region_buffer(reg, area)` lays the region's
buffer out over `area` (spec 4.1: tile_queue "reallocates/rebuffers the
region to that rectangle"); relaying a region validates it again, which is
what lets an invalidated tile become servable after its repaint
(spec 8, scenario 5). -/
def imRegionBuffer (reg : Region) (area : Rect) : Region :=
  { valid := area, pix := reg.pix, invalid := false }

/-- A `Tile`: its (unclipped) grid-aligned area, the `painted` flag, its
pixel region, and the LRU timestamp `ticks`.  The non-owning back pointer
`tile->render` is implicit (tiles are only reached through their render). -/
structure Tile where
  area : Rect
  painted : Bool
  region : Region
  ticks : Int

/-- A default tile value, used for ids never allocated. -/
def defaultTile : Tile :=
  { area := ⟨0, 0, 0, 0⟩, painted := false, region := freshRegion, ticks := 0 }

/-- The per-sink `Render` state (`struct _Render`).  The scheduler globals
(`render_dirty_all`, the semaphore, `render_reschedule`) are modelled
separately as `SchedState`.  `hasNotify` stands for `notify != NULL`;
`haveThreads` is the compile-time `have_threads` constant.  `in_pix` and
`prep_ok` model the external producer image and its `prepare` outcome. -/
structure Render where
  tile_width : Int
  tile_height : Int
  max_tiles : Int
  priority : Int
  hasNotify : Bool
  haveThreads : Bool
  in_pix : Int → Int → Nat
  prep_ok : Rect → Bool
  store : Nat → Tile
  nextId : Nat
  all : List Nat
  ntiles : Int
  ticks : Int
  dirty : List Nat
  tiles : List (Rect × Nat)

/-- Update one tile in the id store. -/
def updStore (st : Nat → Tile) (i : Nat) (t : Tile) : Nat → Tile :=
  fun j => if j = i then t else st j

/-- `g_hash_table_lookup` on the tiles hash: find the entry whose key is
`tile_equal` to `area`. -/
def tilesLookup (l : List (Rect × Nat)) (area : Rect) : Option Nat :=
  (l.find? (fun p => tileEqual p.1 area)).map (fun p => p.2)

/-- `g_hash_table_insert`: replace the entry at an equal key, else add. -/
def tilesInsert (area : Rect) (tid : Nat) (l : List (Rect × Nat)) :
    List (Rect × Nat) :=
  if l.any (fun p => tileEqual p.1 area) then
    l.map (fun p => if tileEqual p.1 area then (area, tid) else p)
  else
    (area, tid) :: l

/-- `g_hash_table_remove`: drop every entry with an equal key (the hash
holds at most one). -/
def tilesRemove (area : Rect) (l : List (Rect × Nat)) : List (Rect × Nat) :=
  l.filter (fun p => !tileEqual p.1 area)

/-- `render_tile_lookup`: the tile at exactly this grid position, or null. -/
def renderTileLookup (r : Render) (area : Rect) : Option Nat :=
  tilesLookup r.tiles area

/-- Modelled from the spec: the producer's `prepare(region, rect)` (spec 6)
computes pixels for `rect` into the region and reports success; on failure
the region is left as it was.  Used for both `im_prepare` (synchronous
paint) and `im_prepare_to` (worker paint). -/
def imPrepareInto (r : Render) (reg : Region) (area : Rect) : Region × Bool :=
  if r.prep_ok area then
    ({ reg with pix := fun x y =>
        if inRectB area x y then r.in_pix x y else reg.pix x y }, true)
  else
    (reg, false)

/-- Allocation events for `tile_new`: `IM_NEW` (a plain `im_malloc`, which
does not zero the returned memory) can fail, `im_region_create` can fail,
or both succeed — in which case the bit that `im_malloc` happened to leave
in the never-initialised `painted` field is `uninit`. -/
inductive AllocEv where
  | mallocFail
  | regionFail
  | ok (uninit : Bool)
deriving Repr, DecidableEq

/-- `tile_new`: on success the new tile gets a zeroed `area`, the sink's
current `ticks`, a fresh region over the producer image, and is prepended
to `all` with `ntiles` incremented.  `painted` is never assigned (the C
code relies on the caller's `tile_queue` to set it), so it holds whatever
`im_malloc` left there.  On either allocation failure the render is
unchanged and null is returned. -/
def tileNew (r : Render) (ev : AllocEv) : Render × Option Nat :=
  match ev with
  | .mallocFail => (r, none)
  | .regionFail => (r, none)
  | .ok uninit =>
    let tile : Tile :=
      { area := ⟨0, 0, 0, 0⟩
        painted := uninit
        region := freshRegion
        ticks := r.ticks }
    let tid := r.nextId
    ({ r with
        store := updStore r.store tid tile
        nextId := tid + 1
        all := tid :: r.all
        ntiles := r.ntiles + 1 }, some tid)

/-- `tile_touch`: stamp the sink's `ticks` onto the tile, increment the
counter, and if the tile is unpainted and on the dirty list move it to the
front. -/
def tileTouch (r : Render) (tid : Nat) : Render :=
  let t := r.store tid
  let t1 : Tile := { t with ticks := r.ticks }
  let r1 : Render :=
    { r with store := updStore r.store tid t1, ticks := r.ticks + 1 }
  if !t1.painted then
    if r1.dirty.contains tid then
      { r1 with dirty := tid :: r1.dirty.erase tid }
    else r1
  else r1

/-- `tile_queue(tile, area)`: clear `painted`, rebind the tile to `area`,
rebuffer its region (on buffer failure the C code prints a diagnostic and
proceeds with the region as it was), insert into the hash under the new
area; then either prepend to the dirty list (asynchronous: notify set and
threads available — `render_dirty_put` on the global scheduler is modelled
separately) or paint synchronously right now, discarding `im_prepare`'s
return value and marking the tile painted regardless. -/
def tileQueue (r : Render) (tid : Nat) (area : Rect) (bufOk : Bool) : Render :=
  let t0 := r.store tid
  let t1 : Tile :=
    { t0 with
        painted := false
        area := area
        region := if bufOk then imRegionBuffer t0.region area else t0.region }
  let r1 : Render :=
    { r with
        store := updStore r.store tid t1
        tiles := tilesInsert area tid r.tiles }
  if r.hasNotify && r.haveThreads then
    { r1 with dirty := tid :: r1.dirty }
  else
    let pr := imPrepareInto r1 t1.region t1.area
    let t2 : Tile := { t1 with region := pr.1, painted := true }
    { r1 with store := updStore r1.store tid t2 }

/-- `tile_test_clean_ticks`: fold step of the painted-LRU scan; keeps the
first painted tile seen with the strictly smallest `ticks`. -/
def tileTestCleanTicks (r : Render) (best : Option Nat) (tid : Nat) :
    Option Nat :=
  let v := r.store tid
  if v.painted then
    match best with
    | none => some tid
    | some b => if v.ticks < (r.store b).ticks then some tid else best
  else best

/-- `render_tile_get_painted`: scan the tiles hash for the painted tile
with minimum `ticks` (`g_hash_table_foreach`; iteration order is the order
of the association list — the claim proved about the result does not
depend on it). -/
def renderTileGetPainted (r : Render) : Option Nat :=
  r.tiles.foldl (fun best p => tileTestCleanTicks r best p.2) none

/-- `render_tile_get_dirty`: take the tail (last element) of the dirty
list, removing it. -/
def renderTileGetDirty (r : Render) : Render × Option Nat :=
  match r.dirty.getLast? with
  | none => (r, none)
  | some tid => ({ r with dirty := r.dirty.erase tid }, some tid)

/-- The per-request external events: the allocation outcome for a possible
`tile_new` and the `im_region_buffer` outcome for a possible `tile_queue`. -/
structure ReqEv where
  alloc : AllocEv
  bufOk : Bool

/-- `tile_request(render, area)`: look the area up; re-queue an existing
tile iff it is unpainted or its region is invalid; else make a new tile if
under capacity (or unbounded); else reuse a painted-LRU tile or the tail
of the dirty list, removing the victim's old hash entry before re-queueing
it at the new area; give up (null) when no victim exists.  Always touch
the returned tile. -/
def tileRequest (r : Render) (area : Rect) (ev : ReqEv) :
    Render × Option Nat :=
  match tilesLookup r.tiles area with
  | some tid =>
    let t := r.store tid
    let r1 := if !t.painted || t.region.invalid then
                tileQueue r tid area ev.bufOk
              else r
    (tileTouch r1 tid, some tid)
  | none =>
    if r.ntiles < r.max_tiles || r.max_tiles == -1 then
      match tileNew r ev.alloc with
      | (r1, none) => (r1, none)
      | (r1, some tid) =>
        let r2 := tileQueue r1 tid area ev.bufOk
        (tileTouch r2 tid, some tid)
    else
      let picked : Render × Option Nat :=
        match renderTileGetPainted r with
        | some tid => (r, some tid)
        | none => renderTileGetDirty r
      match picked with
      | (r1, none) => (r1, none)
      | (r1, some tid) =>
        let r2 : Render :=
          { r1 with tiles := tilesRemove (r1.store tid).area r1.tiles }
        let r3 := tileQueue r2 tid area ev.bufOk
        (tileTouch r3 tid, some tid)

/-- `tile_copy(tile, to)`: intersect the tile's area with the output's
valid rect; copy the tile's pixels over the overlap when the tile is
painted and its region valid, else zero-fill the overlap.  (The C code
asserts the overlap is non-empty; the assertion's condition is discussed
where it matters.) -/
def tileCopy (r : Render) (tid : Nat) (toReg : Region) : Region :=
  let t := r.store tid
  let ovlap := rectIntersect t.area toReg.valid
  if t.painted && !t.region.invalid then
    { toReg with pix := fun x y =>
        if inRectB ovlap x y then t.region.pix x y else toReg.pix x y }
  else
    imRegionPaint toReg ovlap 0

/-- The value list of a C counted `for` loop `for (v = start; v < stop;
v += step)` with positive `step`. -/
def gridCount (start stop step : Int) : Nat :=
  if start < stop then (stop - start - 1).toNat / step.toNat + 1 else 0

/-- The iteration values of that loop, in order. -/
def gridCoords (start stop step : Int) : List Int :=
  (List.range (gridCount start stop step)).map
    (fun i : Nat => start + (i : Int) * step)

/-- The grid cells `(x, y)` traversed by `region_fill` and `mask_fill`
over a valid rect `rc`: both loops start at the tile-aligned
`(left / tile_width) * tile_width` (C division truncating toward zero) and
step one tile at a time while strictly below right/bottom; y outer,
x inner. -/
def sinkCells (r : Render) (rc : Rect) : List (Int × Int) :=
  let xs := (Int.tdiv rc.left r.tile_width) * r.tile_width
  let ys := (Int.tdiv rc.top r.tile_height) * r.tile_height
  (gridCoords ys rc.bottom r.tile_height).flatMap fun y =>
    (gridCoords xs rc.right r.tile_width).map fun x => (x, y)

/-- One step of `region_fill`'s loop body: request the tile for the cell
and, if one came back, copy from it into the output region.  The `Nat`
component counts requests, to index the stream of external events. -/
def regionFillStep (evs : Nat → ReqEv) (acc : Render × Region × Nat)
    (cell : Int × Int) : Render × Region × Nat :=
  let area : Rect := ⟨cell.1, cell.2, acc.1.tile_width, acc.1.tile_height⟩
  let res := tileRequest acc.1 area (evs acc.2.2)
  match res.2 with
  | some tid => (res.1, tileCopy res.1 tid acc.2.1, acc.2.2 + 1)
  | none => (res.1, acc.2.1, acc.2.2 + 1)

/-- `region_fill(out, seq, a, b)`: walk the covering grid cells under the
sink lock, requesting and copying each tile; always returns 0. -/
def regionFill (r : Render) (outReg : Region) (evs : Nat → ReqEv) :
    Render × Region × Int :=
  let fin := (sinkCells r outReg.valid).foldl (regionFillStep evs)
    (r, outReg, 0)
  (fin.1, fin.2.1, 0)

/-- The byte `mask_fill` paints for one grid cell: the C ternary
`(tile && tile->painted && !tile->region->invalid) ? 255 : 0`. -/
def maskVal (r : Render) (area : Rect) : Nat :=
  match tilesLookup r.tiles area with
  | some tid =>
    if (r.store tid).painted && !(r.store tid).region.invalid
    then 255 else 0
  | none => 0

/-- One step of `mask_fill`'s loop body: paint 255 over the cell for a
painted-and-valid tile, 0 otherwise (including when no tile exists). -/
def maskFillStep (acc : Render × Region) (cell : Int × Int) :
    Render × Region :=
  let area : Rect := ⟨cell.1, cell.2, acc.1.tile_width, acc.1.tile_height⟩
  (acc.1, imRegionPaint acc.2 area (maskVal acc.1 area))

/-- `mask_fill(out, seq, a, b)`: same traversal as `region_fill`, writing
255 into the mask over cells whose tile is painted and valid, 0 else. -/
def maskFill (r : Render) (outReg : Region) : Render × Region :=
  (sinkCells r outReg.valid).foldl maskFillStep (r, outReg)

/-- `render_allocate`: under the sink lock, stop (no tile) when the
reschedule flag is up or the dirty list is empty; otherwise take the tile
at the head of the dirty list, removing it (`g_slist_remove` drops the
first occurrence). -/
def renderAllocate (resched : Bool) (r : Render) : Render × Option Nat :=
  if resched || r.dirty.isEmpty then
    (r, none)
  else
    match r.dirty with
    | [] => (r, none)
    | tid :: _ => ({ r with dirty := r.dirty.erase tid }, some tid)

/-- `render_work`: paint the allocated tile unless already painted —
prepare into its region (on failure return -1, swallowed by the pool, tile
left unpainted), set `painted`, and fire the notify callback (no sink
state effect). -/
def renderWork (r : Render) (tid : Nat) : Render :=
  let t := r.store tid
  if t.painted then r
  else
    let pr := imPrepareInto r t.region t.area
    if pr.2 then
      let t1 : Tile := { t with region := pr.1, painted := true }
      { r with store := updStore r.store tid t1 }
    else r

/-- `render_new` (the tile-cache part): a fresh render with the given
configuration and an empty tile store. -/
def renderNew (tw th mt pri : Int) (hasNotify haveThreads : Bool)
    (in_pix : Int → Int → Nat) (prep_ok : Rect → Bool) : Render :=
  { tile_width := tw
    tile_height := th
    max_tiles := mt
    priority := pri
    hasNotify := hasNotify
    haveThreads := haveThreads
    in_pix := in_pix
    prep_ok := prep_ok
    store := fun _ => defaultTile
    nextId := 0
    all := []
    ntiles := 0
    ticks := 0
    dirty := []
    tiles := [] }

/-- The operations a sink's tile store undergoes: a consumer `tile_request`
(with its external events), a consumer `region_fill`, an external
invalidation of a tile's region, a worker allocator step, and a worker
paint of a tile. -/
inductive SinkOp where
  | req (area : Rect) (ev : ReqEv)
  | fill (outReg : Region) (evs : Nat → ReqEv)
  | invalidate (tid : Nat)
  | workerAlloc (resched : Bool)
  | workerPaint (tid : Nat)

/-- Execute one sink operation on the render state. -/
def execOp (r : Render) (op : SinkOp) : Render :=
  match op with
  | .req area ev => (tileRequest r area ev).1
  | .fill outReg evs => (regionFill r outReg evs).1
  | .invalidate tid =>
    let t := r.store tid
    let t1 : Tile := { t with region := { t.region with invalid := true } }
    { r with store := updStore r.store tid t1 }
  | .workerAlloc resched => (renderAllocate resched r).1
  | .workerPaint tid => renderWork r tid

/-! ## The global scheduler

`render_dirty_all`, `render_dirty_sem` and `render_reschedule` are process
globals; sinks are identified by ids and the environment function
`prio : Nat → Int` gives each sink's (immutable) `priority`. -/

/-- `render_dirty_sort(a, b) = b->priority - a->priority`: the comparator
handed to `g_slist_sort`; negative when `a` has the larger priority, so
the sort is descending on priority. -/
def renderDirtySort (prio : Nat → Int) (a b : Nat) : Int := prio b - prio a

/-- Stable insertion of a sink into a comparator-sorted list: walk past
elements that compare strictly before `x`, and stop at the first element
that does not (so an element equal to `x` ends up after `x`, matching a
stable sort of a list in which `x` comes first). -/
def insSorted (prio : Nat → Int) (x : Nat) : List Nat → List Nat
  | [] => [x]
  | h :: t =>
    if renderDirtySort prio h x < 0 then h :: insSorted prio x t
    else x :: h :: t

/-- Modelled from the spec: `g_slist_sort` is GLib's stable merge sort
(spec 4.4: "Ties are broken by insertion order (stable sort)"); a stable
sort of a list under a total preorder is unique, so it is modelled as the
stable insertion sort. -/
def gSListSort (prio : Nat → Int) : List Nat → List Nat
  | [] => []
  | x :: xs => insSorted prio x (gSListSort prio xs)

/-- The scheduler globals: the priority-ordered list of sink ids with
dirty tiles, the semaphore count, and the reschedule flag. -/
structure SchedState where
  dirtyAll : List Nat
  sem : Int
  resched : Bool
deriving Repr, DecidableEq

/-- The initial scheduler state (`render_thread_create`). -/
def schedInit : SchedState := { dirtyAll := [], sem := 0, resched := false }

/-- `render_dirty_put(render)`: under the dirty lock, if the sink has dirty
tiles and is not already queued, prepend it, sort the list with
`render_dirty_sort`, raise the reschedule flag and signal the semaphore. -/
def renderDirtyPut (prio : Nat → Int) (st : SchedState) (s : Nat)
    (hasDirty : Bool) : SchedState :=
  if hasDirty then
    if st.dirtyAll.contains s then st
    else
      { dirtyAll := gSListSort prio (s :: st.dirtyAll)
        sem := st.sem + 1
        resched := true }
  else st

/-- `render_dirty_get()`: after the semaphore wait, pop the head of the
jobs list (null if a concurrent `render_free` emptied it). -/
def renderDirtyGet (st : SchedState) : SchedState × Option Nat :=
  match st.dirtyAll with
  | [] => (st, none)
  | s :: _ =>
    ({ st with dirtyAll := st.dirtyAll.erase s, sem := st.sem - 1 }, some s)

/-- Scheduler operations: a sink (with or without dirty tiles) is offered
to the queue, or the worker takes one. -/
inductive SchedOp where
  | put (s : Nat) (hasDirty : Bool)
  | get
deriving Repr, DecidableEq

/-- Execute one scheduler operation. -/
def execSched (prio : Nat → Int) (st : SchedState) (op : SchedOp) :
    SchedState :=
  match op with
  | .put s hasDirty => renderDirtyPut prio st s hasDirty
  | .get => (renderDirtyGet st).1

/-! ## Invariants and concrete fixtures -/

/-- The capacity invariant of a sink's tile store: `ntiles` counts `all`,
and a bounded cache (`max_tiles ≥ 0`) never holds more than `max_tiles`
tiles. -/
def capacityInv (r : Render) : Prop :=
  (r.all.length : Int) = r.ntiles ∧ (0 ≤ r.max_tiles → r.ntiles ≤ r.max_tiles)

/-- A producer image whose pixels are all zero. -/
def pixZero : Int → Int → Nat := fun _ _ => 0

/-- A producer whose `prepare` always succeeds. -/
def prepAlways : Rect → Bool := fun _ => true

/-- A producer whose `prepare` always fails. -/
def prepNever : Rect → Bool := fun _ => false

/-- Request events with successful allocation and buffering. -/
def evOk : ReqEv := ⟨.ok false, true⟩

/-- A stream of successful request events. -/
def evOkStream : Nat → ReqEv := fun _ => evOk

/-- An unbounded asynchronous sink over 2 by 2 tiles. -/
def rAsync : Render := renderNew 2 2 (-1) 0 true true pixZero prepAlways

/-- An unbounded synchronous sink whose producer's `prepare` always
fails. -/
def rSyncFail : Render := renderNew 2 2 (-1) 0 false true pixZero prepNever

/-- An output region whose valid rect is one 2 by 2 tile at the origin. -/
def outReg22 : Region :=
  { valid := ⟨0, 0, 2, 2⟩, pix := fun _ _ => 0, invalid := false }

/-- An output region whose valid rect has zero area (width 0) but sits at
`left = 3`, off the 2-pixel tile grid. -/
def outZero : Region :=
  { valid := ⟨3, 0, 0, 2⟩, pix := fun _ _ => 0, invalid := false }

/-- An async sink whose dirty list holds tile 1 (head, most recently
queued) and tile 2 (tail, least recently queued). -/
def rDirty12 : Render := { rAsync with dirty := [1, 2] }

/-- An environment in which every sink has the same priority. -/
def prioEq : Nat → Int := fun _ => 5

/-- A synchronous sink bounded at one tile. -/
def rSync1 : Render := renderNew 2 2 1 0 false true pixZero prepAlways

/-- `rSync1` after one request: its single tile slot is used and painted. -/
def rFull : Render := (tileRequest rSync1 ⟨0, 0, 2, 2⟩ evOk).1

/-- `rAsync` after one request: holds one (dirty) tile at the origin. -/
def rHit : Render := (tileRequest rAsync ⟨0, 0, 2, 2⟩ evOk).1

/-! ## General lemmas -/

/-- A point is in an intersection iff it is in both rects. -/
theorem inRectB_rectIntersect (a b : Rect) (x y : Int) :
    inRectB (rectIntersect a b) x y = (inRectB a x y && inRectB b x y) := by
  simp only [inRectB, rectIntersect, Rect.right, Rect.bottom,
    ← Bool.decide_and]
  rw [decide_eq_decide]
  omega

/-- `mask_fill`'s loop body leaves the render untouched. -/
theorem maskFillStep_fst (acc : Render × Region) (cell : Int × Int) :
    (maskFillStep acc cell).1 = acc.1 := rfl

/-- Folding `mask_fill`'s loop body leaves the render untouched. -/
theorem foldl_maskFillStep_fst (cells : List (Int × Int))
    (acc : Render × Region) :
    (cells.foldl maskFillStep acc).1 = acc.1 := by
  induction cells generalizing acc with
  | nil => rfl
  | cons c cs ih => simpa [List.foldl] using ih (maskFillStep acc c)

/-! ## C10 -/

/-- C10: `mask_fill` is read-only with respect to the tile store: it only
looks tiles up, so the whole render state — `all`, `tiles`, `dirty`,
`ntiles`, `ticks` included — is unchanged by a mask region request. -/
theorem C10_mask_fill_readonly (r : Render) (outReg : Region) :
    (maskFill r outReg).1 = r := by
  simpa [maskFill] using foldl_maskFillStep_fst (sinkCells r outReg.valid)
    (r, outReg)

/-! ## C6

The claim says the worker's allocator removes the tile at the *tail* of
the dirty list (LRU-dirty).  In the code (`render_allocate`, line 298)
the allocator takes `render->dirty->data`, the *head* of the list, which
with the MRU-first dirty list is the most recently queued dirty tile;
pop-from-tail is what the eviction helper `render_tile_get_dirty` does. -/

/-- C6 counterexample: with dirty list `[1, 2]` (1 at the head, most
recently queued; 2 at the tail), the allocator hands out tile 1, not the
tail tile 2 that the claim names. -/
theorem C6_counterexample :
    rDirty12.dirty.getLast? = some 2 ∧
    (renderAllocate false rDirty12).2 = some 1 ∧
    (renderAllocate false rDirty12).1.dirty = [2] ∧
    (1 : Nat) ≠ 2 := by decide

/-- C6 (amended): each step of the worker's allocator removes the tile at
the *head* of the sink's dirty list (the most recently queued dirty tile),
so the worker paints in MRU-dirty order; when the reschedule flag is up or
the list is empty it stops without taking a tile. -/
theorem C6_amended_allocator_pops_head (resched : Bool) (r : Render) :
    (resched = true ∨ r.dirty = [] → renderAllocate resched r = (r, none)) ∧
    (∀ tid rest, resched = false → r.dirty = tid :: rest →
      renderAllocate resched r = ({ r with dirty := rest }, some tid)) := by
  constructor
  · intro h
    rcases h with h | h <;> simp [renderAllocate, h]
  · intro tid rest hrs hd
    simp [renderAllocate, hrs, hd]

/-- Witness for the amended C6 at a concrete sink. -/
theorem C6_amended_witness :
    renderAllocate true rDirty12 = (rDirty12, none) ∧
    renderAllocate false rDirty12 = ({ rDirty12 with dirty := [2] }, some 1) := by
  refine ⟨(C6_amended_allocator_pops_head true rDirty12).1 (Or.inl rfl), ?_⟩
  exact (C6_amended_allocator_pops_head false rDirty12).2 1 [2] rfl rfl

/-! ## C2

The claim says a producer `prepare` failure during a synchronous paint is
propagated to the consumer and the tile is left unpainted.  In the code
the synchronous branch of `tile_queue` (lines 617-618) discards
`im_prepare`'s return value and sets `painted = TRUE` unconditionally, and
`region_fill` (line 802) always returns 0; the spec itself records this in
its design notes ("synchronous `tile_queue` ignores `prepare` errors"). -/

/-- C2 counterexample: a synchronous sink whose producer's `prepare`
always fails still marks the requested tile painted, and the consumer's
region request returns 0 (success), not an error. -/
theorem C2_counterexample :
    (rSyncFail.hasNotify && rSyncFail.haveThreads) = false ∧
    rSyncFail.prep_ok ⟨0, 0, 2, 2⟩ = false ∧
    (regionFill rSyncFail outReg22 evOkStream).2.2 = 0 ∧
    ((regionFill rSyncFail outReg22 evOkStream).1.store 0).painted = true := by
  decide

/-- C2 (amended): during a synchronous (no-notify or no-threads) paint,
`tile_queue` discards the producer's `prepare` result and marks the tile
painted regardless, and `region_fill` always returns 0 — the failure is
swallowed, not propagated. -/
theorem C2_amended_sync_prepare_failure_swallowed (r : Render) (tid : Nat)
    (area : Rect) (bufOk : Bool)
    (hsync : (r.hasNotify && r.haveThreads) = false) :
    ((tileQueue r tid area bufOk).store tid).painted = true ∧
    (∀ (outReg : Region) (evs : Nat → ReqEv),
      (regionFill r outReg evs).2.2 = 0) := by
  constructor
  · simp [tileQueue, hsync, updStore]
  · intro outReg evs
    rfl

/-- Witness for the amended C2 at a concrete sink. -/
theorem C2_amended_witness :
    ((tileQueue rSyncFail 0 ⟨0, 0, 2, 2⟩ true).store 0).painted = true ∧
    (regionFill rSyncFail outReg22 evOkStream).2.2 = 0 := by
  have h := C2_amended_sync_prepare_failure_swallowed rSyncFail 0
    ⟨0, 0, 2, 2⟩ true (by decide)
  exact ⟨h.1, h.2 outReg22 evOkStream⟩

/-! ## C9

The claim gives `tile_new`'s postcondition as including `painted = false`.
`tile_new` (lines 534-543) allocates the tile with `IM_NEW` — a plain
`im_malloc`, which does not zero memory — and assigns `render`, `region`,
`area` and `ticks`, but never `painted`: the field keeps whatever bits the
allocator left there (every caller immediately overwrites it in
`tile_queue`).  Everything else in the claim holds. -/

/-- C9 counterexample: when the allocator's residual bit for `painted`
is 1, the tile returned by a successful `tile_new` has `painted = true`,
not `false` as the claim states. -/
theorem C9_counterexample :
    (tileNew rAsync (.ok true)).2 = some 0 ∧
    ((tileNew rAsync (.ok true)).1.store 0).painted = true := by decide

/-- C9 (amended): on success `tile_new` returns a tile whose area is the
zero rectangle, whose `ticks` equals the sink's current ticks counter,
with a freshly allocated region over the producer image, prepended to
`all` with `ntiles` incremented by one — but `painted` is left
uninitialised (it holds the allocator's residual bit); on either
allocation failure it returns null and leaves the sink unchanged. -/
theorem C9_amended_tile_new_postcondition (r : Render) (g : Bool) :
    tileNew r .mallocFail = (r, none) ∧
    tileNew r .regionFail = (r, none) ∧
    (tileNew r (.ok g)).2 = some r.nextId ∧
    ((tileNew r (.ok g)).1.store r.nextId).area = ⟨0, 0, 0, 0⟩ ∧
    ((tileNew r (.ok g)).1.store r.nextId).painted = g ∧
    ((tileNew r (.ok g)).1.store r.nextId).ticks = r.ticks ∧
    ((tileNew r (.ok g)).1.store r.nextId).region = freshRegion ∧
    (tileNew r (.ok g)).1.all = r.nextId :: r.all ∧
    (tileNew r (.ok g)).1.ntiles = r.ntiles + 1 ∧
    (tileNew r (.ok g)).1.tiles = r.tiles ∧
    (tileNew r (.ok g)).1.dirty = r.dirty := by
  refine ⟨rfl, rfl, rfl, ?_, ?_, ?_, ?_, rfl, rfl, rfl, rfl⟩ <;>
    simp [tileNew, updStore]

/-! ## C8

The claim (and the spec's boundary behaviour) says a zero-area output
region performs no tile requests.  `region_fill` starts its column loop at
the tile-aligned `xs = (left / tile_width) * tile_width` and runs while
`x < left + width`; with `width = 0` and `left` not tile-aligned, `xs`
lies strictly below `left`, so the loop still runs one column — a tile is
requested (and created) for a region holding no pixels, and the
`g_assert( !im_rect_isempty( &ovlap ) )` in `tile_copy` (line 731) is
violated because the tile's area does not meet the empty valid rect.  The
spec is the evident intent and the loop bound a slip, so this is a code
bug. -/

/-- C8: at the zero-area valid rect `{left 3, top 0, width 0, height 2}`
with 2 by 2 tiles, `region_fill` performs a tile request — it creates one
tile, at grid position (2, 0) — and the overlap handed to `tile_copy` is
empty, contradicting `tile_copy`'s own assertion. -/
theorem C8_zero_area_requests_tile :
    outZero.valid.width = 0 ∧
    (regionFill rAsync outZero evOkStream).1.ntiles = 1 ∧
    tilesLookup (regionFill rAsync outZero evOkStream).1.tiles
      ⟨2, 0, 2, 2⟩ = some 0 ∧
    (rectIntersect ⟨2, 0, 2, 2⟩ outZero.valid).isEmpty = true := by decide

/-! ## Scheduler lemmas -/

/-- Membership in a stable insertion. -/
theorem mem_insSorted (prio : Nat → Int) (x b : Nat) (l : List Nat) :
    b ∈ insSorted prio x l ↔ b = x ∨ b ∈ l := by
  induction l with
  | nil => simp [insSorted]
  | cons a t ih =>
    by_cases hc : renderDirtySort prio a x < 0
    · rw [insSorted, if_pos hc]
      simp only [List.mem_cons, ih]
      tauto
    · rw [insSorted, if_neg hc]
      simp only [List.mem_cons]

/-- Stable insertion keeps the list sorted by descending priority. -/
theorem pairwise_insSorted (prio : Nat → Int) (x : Nat) (l : List Nat)
    (h : l.Pairwise (fun a b => prio b ≤ prio a)) :
    (insSorted prio x l).Pairwise (fun a b => prio b ≤ prio a) := by
  induction l with
  | nil => simp [insSorted]
  | cons a t ih =>
    rcases List.pairwise_cons.1 h with ⟨ha, ht⟩
    by_cases hc : renderDirtySort prio a x < 0
    · rw [insSorted, if_pos hc]
      refine List.pairwise_cons.2 ⟨?_, ih ht⟩
      intro b hb
      rcases (mem_insSorted prio x b t).1 hb with hb | hb
      · have hd : prio x - prio a < 0 := hc
        rw [hb]
        omega
      · exact ha b hb
    · rw [insSorted, if_neg hc]
      refine List.pairwise_cons.2 ⟨?_, h⟩
      intro b hb
      have hax : prio a ≤ prio x := by
        have : ¬(prio x - prio a < 0) := hc
        omega
      rcases List.mem_cons.1 hb with hb | hb
      · subst hb
        exact hax
      · exact le_trans (ha b hb) hax

/-- `g_slist_sort` with `render_dirty_sort` yields a list sorted by
descending priority. -/
theorem pairwise_gSListSort (prio : Nat → Int) (l : List Nat) :
    (gSListSort prio l).Pairwise (fun a b => prio b ≤ prio a) := by
  induction l with
  | nil => simp [gSListSort]
  | cons a t ih => exact pairwise_insSorted prio a (gSListSort prio t) ih

/-- A stable insertion places the new element right after the strictly
higher-priority prefix — in particular *before* every element of equal
priority already in the list. -/
theorem insSorted_eq_append (prio : Nat → Int) (x : Nat) (l : List Nat) :
    insSorted prio x l =
      l.takeWhile (fun h => decide (prio x < prio h)) ++
      x :: l.dropWhile (fun h => decide (prio x < prio h)) := by
  induction l with
  | nil => simp [insSorted]
  | cons a t ih =>
    by_cases hc : renderDirtySort prio a x < 0
    · have hx : prio x < prio a := by
        have : prio x - prio a < 0 := hc
        omega
      rw [insSorted, if_pos hc, ih]
      rw [List.takeWhile_cons, List.dropWhile_cons]
      simp [hx]
    · have hx : ¬(prio x < prio a) := by
        have : ¬(prio x - prio a < 0) := hc
        omega
      rw [insSorted, if_neg hc]
      rw [List.takeWhile_cons, List.dropWhile_cons]
      simp [hx]

/-- Sorting an already priority-sorted list leaves it unchanged. -/
theorem gSListSort_eq_self (prio : Nat → Int) (l : List Nat)
    (h : l.Pairwise (fun a b => prio b ≤ prio a)) :
    gSListSort prio l = l := by
  induction l with
  | nil => rfl
  | cons a t ih =>
    rcases List.pairwise_cons.1 h with ⟨ha, ht⟩
    rw [gSListSort, ih ht]
    cases t with
    | nil => rfl
    | cons b t2 =>
      have hba : prio b ≤ prio a := ha b (List.mem_cons_self b t2)
      rw [insSorted, if_neg]
      have : renderDirtySort prio b a = prio a - prio b := rfl
      omega

/-! ## C5

The claim says that among sinks of equal priority the sink queued first
appears earlier (FIFO tie-breaking).  `render_dirty_put` (lines 348-361)
*prepends* the new sink and then runs GLib's stable `g_slist_sort`, so a
newly queued sink stays in front of every already-queued sink of equal
priority: ties are broken most-recently-queued-first (LIFO), not FIFO.
The descending-priority sort itself is as claimed. -/

/-- C5 counterexample: sinks 0 and 1 have equal priority; sink 0 is queued
first, then sink 1; `render_dirty_get` pops sink 1, the one queued last —
not the first-queued sink the claim names. -/
theorem C5_counterexample :
    (execSched prioEq (execSched prioEq schedInit (.put 0 true))
      (.put 1 true)).dirtyAll = [1, 0] ∧
    (renderDirtyGet (execSched prioEq (execSched prioEq schedInit
      (.put 0 true)) (.put 1 true))).2 = some 1 ∧
    (1 : Nat) ≠ 0 := by decide

/-- C5 (amended): after any sequence of `render_dirty_put` /
`render_dirty_get` calls the `dirty_sinks` list is sorted by descending
priority, and `render_dirty_get` pops the head, a sink of maximal
priority; but a put of a sink not yet queued inserts it right after the
strictly higher-priority prefix — *before* every equal-priority sink
already in the list, so equal-priority ties are served most recently
queued first (LIFO), not FIFO. -/
theorem C5_amended_scheduler_order (prio : Nat → Int) :
    (∀ ops : List SchedOp,
      ((ops.foldl (execSched prio) schedInit).dirtyAll).Pairwise
        (fun a b => prio b ≤ prio a)) ∧
    (∀ (st : SchedState) (s : Nat), s ∉ st.dirtyAll →
      st.dirtyAll.Pairwise (fun a b => prio b ≤ prio a) →
      (renderDirtyPut prio st s true).dirtyAll =
        st.dirtyAll.takeWhile (fun h => decide (prio s < prio h)) ++
        s :: st.dirtyAll.dropWhile (fun h => decide (prio s < prio h))) ∧
    (∀ (st : SchedState) (s : Nat) (rest : List Nat),
      st.dirtyAll = s :: rest →
      (renderDirtyGet st).2 = some s ∧
      (renderDirtyGet st).1.dirtyAll = rest ∧
      (st.dirtyAll.Pairwise (fun a b => prio b ≤ prio a) →
        ∀ x ∈ st.dirtyAll, prio x ≤ prio s)) := by
  refine ⟨?_, ?_, ?_⟩
  · intro ops
    have key : ∀ (st : SchedState),
        st.dirtyAll.Pairwise (fun a b => prio b ≤ prio a) →
        ((ops.foldl (execSched prio) st).dirtyAll).Pairwise
          (fun a b => prio b ≤ prio a) := by
      induction ops with
      | nil => intro st h; exact h
      | cons op ops ih =>
        intro st h
        refine ih (execSched prio st op) ?_
        cases op with
        | put s hasDirty =>
          simp only [execSched, renderDirtyPut]
          split
          · split
            · exact h
            · exact pairwise_gSListSort prio (s :: st.dirtyAll)
          · exact h
        | get =>
          cases hda : st.dirtyAll with
          | nil => simp [execSched, renderDirtyGet, hda]
          | cons a t =>
            have h2 := h
            rw [hda] at h2
            rcases List.pairwise_cons.1 h2 with ⟨_, ht⟩
            simpa [execSched, renderDirtyGet, hda] using ht
    exact key schedInit (by simp [schedInit])
  · intro st s hmem hsorted
    simp only [renderDirtyPut, if_true]
    rw [if_neg (by simpa [List.elem_iff] using hmem)]
    show gSListSort prio (s :: st.dirtyAll) = _
    rw [gSListSort, gSListSort_eq_self prio st.dirtyAll hsorted]
    exact insSorted_eq_append prio s st.dirtyAll
  · intro st s rest hda
    refine ⟨?_, ?_, ?_⟩
    · simp [renderDirtyGet, hda]
    · simp [renderDirtyGet, hda]
    · intro hsorted x hx
      rw [hda] at hsorted hx
      rcases List.pairwise_cons.1 hsorted with ⟨ha, _⟩
      rcases List.mem_cons.1 hx with hx | hx
      · subst hx
        exact le_refl _
      · exact ha x hx

/-! ## Capacity preservation lemmas -/

/-- `tile_queue` never changes `all`, `ntiles` or the configuration. -/
theorem tileQueue_counts (r : Render) (tid : Nat) (area : Rect) (b : Bool) :
    (tileQueue r tid area b).all = r.all ∧
    (tileQueue r tid area b).ntiles = r.ntiles ∧
    (tileQueue r tid area b).max_tiles = r.max_tiles := by
  simp only [tileQueue]
  split_ifs <;> exact ⟨rfl, rfl, rfl⟩

/-- `tile_touch` never changes `all`, `ntiles` or the configuration. -/
theorem tileTouch_counts (r : Render) (tid : Nat) :
    (tileTouch r tid).all = r.all ∧
    (tileTouch r tid).ntiles = r.ntiles ∧
    (tileTouch r tid).max_tiles = r.max_tiles := by
  simp only [tileTouch]
  split_ifs <;> exact ⟨rfl, rfl, rfl⟩

/-- `render_tile_get_dirty` never changes `all`, `ntiles` or the
configuration. -/
theorem renderTileGetDirty_counts (r : Render) :
    (renderTileGetDirty r).1.all = r.all ∧
    (renderTileGetDirty r).1.ntiles = r.ntiles ∧
    (renderTileGetDirty r).1.max_tiles = r.max_tiles := by
  unfold renderTileGetDirty
  cases r.dirty.getLast? with
  | none => exact ⟨rfl, rfl, rfl⟩
  | some tid => exact ⟨rfl, rfl, rfl⟩

/-- `tile_request` preserves the capacity invariant and the
configuration: a new tile is only created under the capacity guard. -/
theorem tileRequest_capacity (r : Render) (area : Rect) (ev : ReqEv)
    (h : capacityInv r) :
    capacityInv (tileRequest r area ev).1 ∧
    (tileRequest r area ev).1.max_tiles = r.max_tiles := by
  unfold tileRequest
  cases hl : tilesLookup r.tiles area with
  | some tid =>
    dsimp only
    set r1 := if !(r.store tid).painted || (r.store tid).region.invalid then
        tileQueue r tid area ev.bufOk else r with hr1
    have h1 : r1.all = r.all ∧ r1.ntiles = r.ntiles ∧
        r1.max_tiles = r.max_tiles := by
      rw [hr1]
      by_cases hc : (!(r.store tid).painted || (r.store tid).region.invalid)
        = true
      · rw [if_pos hc]
        exact tileQueue_counts r tid area ev.bufOk
      · rw [if_neg hc]
        exact ⟨rfl, rfl, rfl⟩
    rcases tileTouch_counts r1 tid with ⟨t1, t2, t3⟩
    rcases h1 with ⟨a1, a2, a3⟩
    rcases h with ⟨hc1, hc2⟩
    constructor
    · constructor
      · rw [t1, a1, t2, a2]
        exact hc1
      · rw [t2, a2, t3, a3]
        exact hc2
    · rw [t3, a3]
  | none =>
    dsimp only
    split
    case isTrue hcond =>
      cases hev : ev.alloc with
      | mallocFail =>
        simp only [tileNew]
        exact ⟨h, by trivial⟩
      | regionFail =>
        simp only [tileNew]
        exact ⟨h, by trivial⟩
      | ok g =>
        simp only [tileNew]
        rcases h with ⟨hc1, hc2⟩
        have hlt : r.ntiles < r.max_tiles ∨ r.max_tiles = -1 := by
          have h2 := hcond
          simp only [Bool.or_eq_true, decide_eq_true_eq, beq_iff_eq] at h2
          exact h2
        set rn : Render :=
          { r with
              store := updStore r.store r.nextId
                { area := ⟨0, 0, 0, 0⟩, painted := g, region := freshRegion,
                  ticks := r.ticks }
              nextId := r.nextId + 1
              all := r.nextId :: r.all
              ntiles := r.ntiles + 1 } with hrn
        have hinv : capacityInv rn := by
          constructor
          · show ((r.nextId :: r.all).length : Int) = r.ntiles + 1
            simp only [List.length_cons]
            omega
          · show 0 ≤ r.max_tiles → r.ntiles + 1 ≤ r.max_tiles
            intro h0
            rcases hlt with hx | hx
            · omega
            · omega
        rcases tileQueue_counts rn r.nextId area ev.bufOk with ⟨q1, q2, q3⟩
        rcases tileTouch_counts (tileQueue rn r.nextId area ev.bufOk)
          r.nextId with ⟨t1, t2, t3⟩
        rcases hinv with ⟨i1, i2⟩
        refine ⟨⟨?_, ?_⟩, ?_⟩
        · rw [t1, q1, t2, q2]
          exact i1
        · rw [t2, q2, t3, q3]
          exact i2
        · rw [t3, q3]
    case isFalse hcond =>
      cases hgp : renderTileGetPainted r with
      | some tid =>
        dsimp only
        set r2 : Render :=
          { r with tiles := tilesRemove (r.store tid).area r.tiles } with hr2
        have h2 : capacityInv r2 := h
        rcases tileQueue_counts r2 tid area ev.bufOk with ⟨q1, q2, q3⟩
        rcases tileTouch_counts (tileQueue r2 tid area ev.bufOk) tid with
          ⟨t1, t2, t3⟩
        rcases h2 with ⟨i1, i2⟩
        refine ⟨⟨?_, ?_⟩, ?_⟩
        · rw [t1, q1, t2, q2]
          exact i1
        · rw [t2, q2, t3, q3]
          exact i2
        · rw [t3, q3]
      | none =>
        dsimp only
        cases hL : r.dirty.getLast? with
        | none =>
          simp only [renderTileGetDirty, hL]
          exact ⟨h, by trivial⟩
        | some tid =>
          simp only [renderTileGetDirty, hL]
          set r1 : Render := { r with dirty := r.dirty.erase tid } with hr1
          set r2 : Render :=
            { r1 with tiles := tilesRemove (r1.store tid).area r1.tiles }
            with hr2
          have h2 : capacityInv r2 := h
          rcases tileQueue_counts r2 tid area ev.bufOk with ⟨q1, q2, q3⟩
          rcases tileTouch_counts (tileQueue r2 tid area ev.bufOk) tid with
            ⟨t1, t2, t3⟩
          rcases h2 with ⟨i1, i2⟩
          refine ⟨⟨?_, ?_⟩, ?_⟩
          · rw [t1, q1, t2, q2]
            exact i1
          · rw [t2, q2, t3, q3]
            exact i2
          · rw [t3, q3]

/-- `region_fill`'s loop preserves the capacity invariant and the
configuration. -/
theorem foldFill_capacity (evs : Nat → ReqEv) (cells : List (Int × Int)) :
    ∀ acc : Render × Region × Nat, capacityInv acc.1 →
      capacityInv ((cells.foldl (regionFillStep evs) acc).1) ∧
      ((cells.foldl (regionFillStep evs) acc).1).max_tiles =
        acc.1.max_tiles := by
  induction cells with
  | nil => exact fun acc h => ⟨h, rfl⟩
  | cons c cs ih =>
    intro acc hacc
    have hstep : capacityInv ((regionFillStep evs acc c).1) ∧
        ((regionFillStep evs acc c).1).max_tiles = acc.1.max_tiles := by
      unfold regionFillStep
      rcases tileRequest_capacity acc.1
        ⟨c.1, c.2, acc.1.tile_width, acc.1.tile_height⟩ (evs acc.2.2) hacc
        with ⟨ha, hb⟩
      cases hreq : (tileRequest acc.1
          ⟨c.1, c.2, acc.1.tile_width, acc.1.tile_height⟩ (evs acc.2.2)).2 with
      | some tid =>
        simp only [hreq]
        exact ⟨ha, hb⟩
      | none =>
        simp only [hreq]
        exact ⟨ha, hb⟩
    rcases ih (regionFillStep evs acc c) hstep.1 with ⟨ia, ib⟩
    rw [List.foldl_cons]
    exact ⟨ia, by rw [ib, hstep.2]⟩

/-- Every sink operation preserves the capacity invariant and the
configuration. -/
theorem execOp_capacity (r : Render) (op : SinkOp) (h : capacityInv r) :
    capacityInv (execOp r op) ∧ (execOp r op).max_tiles = r.max_tiles := by
  cases op with
  | req area ev => exact tileRequest_capacity r area ev h
  | fill outReg evs =>
    show capacityInv (regionFill r outReg evs).1 ∧ _
    unfold regionFill
    exact foldFill_capacity evs (sinkCells r outReg.valid) (r, outReg, 0) h
  | invalidate tid => exact ⟨h, rfl⟩
  | workerAlloc resched =>
    show capacityInv (renderAllocate resched r).1 ∧
      (renderAllocate resched r).1.max_tiles = r.max_tiles
    unfold renderAllocate
    split_ifs
    · exact ⟨h, rfl⟩
    · cases r.dirty with
      | nil => exact ⟨h, rfl⟩
      | cons a t => exact ⟨h, rfl⟩
  | workerPaint tid =>
    show capacityInv (renderWork r tid) ∧
      (renderWork r tid).max_tiles = r.max_tiles
    unfold renderWork
    dsimp only
    split_ifs
    · exact ⟨h, rfl⟩
    · exact ⟨h, rfl⟩
    · exact ⟨h, rfl⟩

/-! ## C1 -/

/-- C1: along every sequence of sink operations from a fresh render —
`tile_request` and `region_fill` (`tile_new` is invoked solely from
`tile_request`'s capacity-guarded branch, its only call site in the
source), together with external invalidations and worker steps — the
length of `all` equals `ntiles`, and when `max_tiles ≥ 0` the sink never
holds more than `max_tiles` tiles; in particular with `max_tiles = 0` no
tile is ever created.  The last conjunct covers `tile_new` itself: it
always keeps `|all| = ntiles` (both grow by one on success, neither
changes on failure). -/
theorem C1_capacity_invariant (tw th mt pri : Int) (hn ht : Bool)
    (ip : Int → Int → Nat) (pk : Rect → Bool) (ops : List SinkOp) :
    capacityInv (ops.foldl execOp (renderNew tw th mt pri hn ht ip pk)) ∧
    (mt = 0 →
      (ops.foldl execOp (renderNew tw th mt pri hn ht ip pk)).all = []) ∧
    (∀ (r : Render) (ev : AllocEv), (r.all.length : Int) = r.ntiles →
      ((tileNew r ev).1.all.length : Int) = (tileNew r ev).1.ntiles) := by
  have key : ∀ (l : List SinkOp) (r : Render), capacityInv r →
      capacityInv (l.foldl execOp r) ∧
      (l.foldl execOp r).max_tiles = r.max_tiles := by
    intro l
    induction l with
    | nil => exact fun r h => ⟨h, rfl⟩
    | cons op ops ih =>
      intro r h
      rcases execOp_capacity r op h with ⟨h1, h2⟩
      rcases ih (execOp r op) h1 with ⟨h3, h4⟩
      rw [List.foldl_cons]
      exact ⟨h3, by rw [h4, h2]⟩
  have hinit : capacityInv (renderNew tw th mt pri hn ht ip pk) := by
    constructor
    · rfl
    · intro h0
      show (0 : Int) ≤ mt
      exact h0
  rcases key ops (renderNew tw th mt pri hn ht ip pk) hinit with ⟨h1, h2⟩
  refine ⟨h1, ?_, ?_⟩
  · intro hmt
    subst hmt
    rcases h1 with ⟨hl, hle⟩
    rw [h2] at hle
    have hmx : (renderNew tw th 0 pri hn ht ip pk).max_tiles = 0 := rfl
    rw [hmx] at hle
    have hle2 := hle le_rfl
    have hlen : (ops.foldl execOp
        (renderNew tw th 0 pri hn ht ip pk)).all.length = 0 := by omega
    exact List.length_eq_zero.mp hlen
  · intro r ev hlen
    cases ev with
    | mallocFail => exact hlen
    | regionFail => exact hlen
    | ok g =>
      show (((r.nextId :: r.all).length : Int)) = r.ntiles + 1
      simp only [List.length_cons]
      omega

/-- Witness for C1: one request against a sink bounded at zero tiles
creates nothing, and `tile_new` grows `all` and `ntiles` together. -/
theorem C1_witness :
    capacityInv ([SinkOp.req ⟨0, 0, 2, 2⟩ evOk].foldl execOp
      (renderNew 2 2 0 0 true true pixZero prepAlways)) ∧
    ([SinkOp.req ⟨0, 0, 2, 2⟩ evOk].foldl execOp
      (renderNew 2 2 0 0 true true pixZero prepAlways)).all = [] ∧
    ((tileNew rAsync (.ok false)).1.all.length : Int) =
      (tileNew rAsync (.ok false)).1.ntiles := by
  have h := C1_capacity_invariant 2 2 0 0 true true pixZero prepAlways
    [SinkOp.req ⟨0, 0, 2, 2⟩ evOk]
  exact ⟨h.1, h.2.1 rfl, h.2.2 rAsync (.ok false) (by decide)⟩

/-! ## Painted-LRU scan lemmas -/

/-- One step of the painted-LRU scan: it yields painted candidates only,
returns none only from an empty accumulator on an unpainted entry, picks a
candidate no more ticked than a painted entry, and never increases the
candidate's ticks. -/
theorem tileTestCleanTicks_spec (r : Render) (acc : Option Nat) (tid : Nat)
    (hacc : ∀ b, acc = some b → (r.store b).painted = true) :
    (∀ b, tileTestCleanTicks r acc tid = some b →
      (r.store b).painted = true) ∧
    (tileTestCleanTicks r acc tid = none →
      acc = none ∧ (r.store tid).painted = false) ∧
    ((r.store tid).painted = true →
      ∃ c, tileTestCleanTicks r acc tid = some c ∧
        (r.store c).ticks ≤ (r.store tid).ticks) ∧
    (∀ b, acc = some b →
      ∃ c, tileTestCleanTicks r acc tid = some c ∧
        (r.store c).ticks ≤ (r.store b).ticks) ∧
    (∀ b, tileTestCleanTicks r acc tid = some b →
      acc = some b ∨ b = tid) := by
  unfold tileTestCleanTicks
  by_cases hp : (r.store tid).painted = true
  · rw [if_pos hp]
    cases acc with
    | none =>
      refine ⟨?_, ?_, ?_, ?_, ?_⟩
      · intro b hb
        cases hb
        exact hp
      · intro h
        cases h
      · intro _
        exact ⟨tid, rfl, le_refl _⟩
      · intro b hb
        cases hb
      · intro b hb
        cases hb
        exact Or.inr rfl
    | some b0 =>
      dsimp only
      have hb0 : (r.store b0).painted = true := hacc b0 rfl
      by_cases hlt : (r.store tid).ticks < (r.store b0).ticks
      · rw [if_pos hlt]
        refine ⟨?_, ?_, ?_, ?_, ?_⟩
        · intro b hb
          cases hb
          exact hp
        · intro h
          cases h
        · intro _
          exact ⟨tid, rfl, le_refl _⟩
        · intro b hb
          cases hb
          exact ⟨tid, rfl, le_of_lt hlt⟩
        · intro b hb
          cases hb
          exact Or.inr rfl
      · rw [if_neg hlt]
        refine ⟨?_, ?_, ?_, ?_, ?_⟩
        · intro b hb
          cases hb
          exact hb0
        · intro h
          cases h
        · intro _
          exact ⟨b0, rfl, le_of_not_lt hlt⟩
        · intro b hb
          cases hb
          exact ⟨b0, rfl, le_refl _⟩
        · intro b hb
          exact Or.inl hb
  · rw [if_neg hp]
    refine ⟨hacc, ?_, ?_, ?_, ?_⟩
    · intro h
      refine ⟨h, ?_⟩
      cases hpb : (r.store tid).painted
      · rfl
      · exact absurd hpb hp
    · intro h
      exact absurd h hp
    · intro b hb
      exact ⟨b, hb, le_refl _⟩
    · intro b hb
      exact Or.inl hb

/-- Specification of the painted-LRU scan fold: starting from an
accumulator holding only painted candidates, the fold returns none exactly
when the accumulator was empty and no scanned entry is painted, and
otherwise a painted tile whose ticks are minimal among the scanned painted
entries and no larger than the accumulator's. -/
theorem foldPainted_spec (r : Render) (l : List (Rect × Nat)) :
    ∀ acc : Option Nat,
      (∀ b, acc = some b → (r.store b).painted = true) →
      ((l.foldl (fun best p => tileTestCleanTicks r best p.2) acc = none →
          acc = none ∧ ∀ p ∈ l, (r.store p.2).painted = false) ∧
       (∀ t, l.foldl (fun best p => tileTestCleanTicks r best p.2) acc
            = some t →
          (r.store t).painted = true ∧
          (∀ p ∈ l, (r.store p.2).painted = true →
            (r.store t).ticks ≤ (r.store p.2).ticks) ∧
          (∀ b, acc = some b →
            (r.store t).ticks ≤ (r.store b).ticks) ∧
          ((∃ p ∈ l, p.2 = t) ∨ acc = some t))) := by
  induction l with
  | nil =>
    intro acc hacc
    refine ⟨fun h => ⟨h, by simp⟩, ?_⟩
    intro t ht
    have h2 : acc = some t := ht
    refine ⟨hacc t ht, by simp, ?_, Or.inr h2⟩
    intro b hb
    rw [h2] at hb
    cases hb
    exact le_refl _
  | cons p l ih =>
    intro acc hacc
    rcases tileTestCleanTicks_spec r acc p.2 hacc with ⟨hA, hB, hC, hD, hE⟩
    rcases ih (tileTestCleanTicks r acc p.2) hA with ⟨ihn, ihs⟩
    refine ⟨?_, ?_⟩
    · intro h
      rcases ihn h with ⟨hnone, hrest⟩
      rcases hB hnone with ⟨haccn, hpn⟩
      refine ⟨haccn, ?_⟩
      intro q hq
      rcases List.mem_cons.1 hq with hq | hq
      · rw [hq]
        exact hpn
      · exact hrest q hq
    · intro t ht
      rcases ihs t ht with ⟨hpt, hmin, hacc2, hfrom⟩
      refine ⟨hpt, ?_, ?_, ?_⟩
      · intro q hq hqp
        rcases List.mem_cons.1 hq with hq | hq
        · rw [hq] at hqp ⊢
          rcases hC hqp with ⟨c, hcs, hcle⟩
          exact le_trans (hacc2 c hcs) hcle
        · exact hmin q hq hqp
      · intro b hb
        rcases hD b hb with ⟨c, hcs, hcle⟩
        exact le_trans (hacc2 c hcs) hcle
      · rcases hfrom with ⟨q, hq, hqt⟩ | hsome
        · exact Or.inl ⟨q, List.mem_cons_of_mem p hq, hqt⟩
        · rcases hE t hsome with hacc3 | hptid
          · exact Or.inr hacc3
          · exact Or.inl ⟨p, List.mem_cons_self p l, hptid.symm⟩

/-! ## C3 -/

/-- C3: on a `tile_request` miss with a full bounded cache, if a painted
tile exists in the hash the reused tile is painted with minimal `ticks`
among all painted tiles, and the request removes its old hash entry before
re-queueing it at the new area; with no painted tile, the tail of the
dirty list is reused (removed from `dirty` and from the hash under its old
area); with neither, the request returns null and leaves the render
unchanged. -/
theorem C3_replacement_policy (r : Render) (area : Rect) (ev : ReqEv)
    (hmiss : tilesLookup r.tiles area = none)
    (hfull : ¬(r.ntiles < r.max_tiles)) (hm1 : r.max_tiles ≠ -1) :
    ((∃ p ∈ r.tiles, (r.store p.2).painted = true) →
      ∃ tid, renderTileGetPainted r = some tid ∧
        (r.store tid).painted = true ∧
        (∀ p ∈ r.tiles, (r.store p.2).painted = true →
          (r.store tid).ticks ≤ (r.store p.2).ticks) ∧
        tileRequest r area ev =
          (tileTouch (tileQueue
            { r with tiles := tilesRemove (r.store tid).area r.tiles }
            tid area ev.bufOk) tid, some tid)) ∧
    ((∀ p ∈ r.tiles, (r.store p.2).painted = false) → r.dirty ≠ [] →
      ∃ tid, r.dirty.getLast? = some tid ∧
        tileRequest r area ev =
          (tileTouch (tileQueue
            { r with dirty := r.dirty.erase tid,
                     tiles := tilesRemove (r.store tid).area r.tiles }
            tid area ev.bufOk) tid, some tid)) ∧
    ((∀ p ∈ r.tiles, (r.store p.2).painted = false) → r.dirty = [] →
      tileRequest r area ev = (r, none)) := by
  have hcond : (decide (r.ntiles < r.max_tiles) || (r.max_tiles == -1))
      = false := by
    simp only [Bool.or_eq_false_iff, decide_eq_false_iff_not,
      beq_eq_false_iff_ne, ne_eq]
    exact ⟨hfull, hm1⟩
  rcases foldPainted_spec r r.tiles none (by intro b hb; cases hb) with
    ⟨hfn, hfs⟩
  have hgp_none : (∀ p ∈ r.tiles, (r.store p.2).painted = false) →
      renderTileGetPainted r = none := by
    intro hnp
    cases hg : renderTileGetPainted r with
    | none => rfl
    | some t =>
      rcases hfs t hg with ⟨hpt, _, _, hfrom⟩
      rcases hfrom with ⟨q, hq, hqt⟩ | hsome
      · rw [← hqt] at hpt
        rw [hnp q hq] at hpt
        cases hpt
      · cases hsome
  refine ⟨?_, ?_, ?_⟩
  · rintro ⟨p, hp, hpp⟩
    cases hg : renderTileGetPainted r with
    | none =>
      rcases hfn hg with ⟨_, hall⟩
      rw [hall p hp] at hpp
      cases hpp
    | some tid =>
      rcases hfs tid hg with ⟨hpt, hmin, _, _⟩
      refine ⟨tid, rfl, hpt, hmin, ?_⟩
      simp only [tileRequest, hmiss, hcond, Bool.false_eq_true, if_false,
        hg]
  · intro hnp hne
    have hg := hgp_none hnp
    cases hL : r.dirty.getLast? with
    | none =>
      rw [List.getLast?_eq_none_iff] at hL
      exact absurd hL hne
    | some tid =>
      refine ⟨tid, rfl, ?_⟩
      simp only [tileRequest, hmiss, hcond, Bool.false_eq_true, if_false,
        hg, renderTileGetDirty, hL]
  · intro hnp hd
    have hg := hgp_none hnp
    have hL : r.dirty.getLast? = none := by
      rw [hd]
      rfl
    simp only [tileRequest, hmiss, hcond, Bool.false_eq_true, if_false,
      hg, renderTileGetDirty, hL]

/-- Witness for C3 at a concrete sink: `rFull` is a bounded (1-tile)
synchronous sink whose single tile is painted; a request at a fresh area
evicts that minimal-ticks painted tile. -/
theorem C3_witness :
    tilesLookup rFull.tiles ⟨2, 0, 2, 2⟩ = none ∧
    ¬(rFull.ntiles < rFull.max_tiles) ∧
    rFull.max_tiles ≠ -1 ∧
    ((rFull.store 0).painted = true ∧ 0 ∈ rFull.tiles.map (fun p => p.2)) ∧
    ∃ tid, renderTileGetPainted rFull = some tid ∧
      (rFull.store tid).painted = true ∧
      (∀ p ∈ rFull.tiles, (rFull.store p.2).painted = true →
        (rFull.store tid).ticks ≤ (rFull.store p.2).ticks) ∧
      tileRequest rFull ⟨2, 0, 2, 2⟩ evOk =
        (tileTouch (tileQueue
          { rFull with
              tiles := tilesRemove (rFull.store tid).area rFull.tiles }
          tid ⟨2, 0, 2, 2⟩ evOk.bufOk) tid, some tid) := by
  have h := C3_replacement_policy rFull ⟨2, 0, 2, 2⟩ evOk (by decide)
    (by decide) (by decide)
  refine ⟨by decide, by decide, by decide, by decide, ?_⟩
  exact h.1 ⟨(⟨0, 0, 2, 2⟩, 0), by decide, by decide⟩

/-- C4: when `tile_request` finds a tile already at `area`, it re-enqueues
it via `tile_queue` iff the tile is unpainted or its region's `invalid`
flag is set — a painted, valid tile is only touched; and `tile_copy` (the
copy step of `region_fill`) writes, at every point of the overlap of the
tile's area with the output's valid rect, the tile's pixel when the tile
is painted and valid and zero otherwise. -/
theorem C4_invalidation (r : Render) (area : Rect) (ev : ReqEv) (tid : Nat)
    (hhit : tilesLookup r.tiles area = some tid) :
    tileRequest r area ev =
      (tileTouch (if !(r.store tid).painted || (r.store tid).region.invalid
                  then tileQueue r tid area ev.bufOk else r) tid, some tid) ∧
    (∀ (tid' : Nat) (toReg : Region) (x y : Int),
      inRectB (rectIntersect (r.store tid').area toReg.valid) x y = true →
      (tileCopy r tid' toReg).pix x y =
        if (r.store tid').painted && !(r.store tid').region.invalid
        then (r.store tid').region.pix x y else 0) := by
  constructor
  · simp only [tileRequest, hhit]
  · intro tid' toReg x y h
    by_cases hc : ((r.store tid').painted && !(r.store tid').region.invalid)
      = true
    · simp only [tileCopy, hc, if_true, h]
    · have hvalid : inRectB toReg.valid x y = true := by
        have h2 := h
        simp only [inRectB_rectIntersect, Bool.and_eq_true] at h2
        exact h2.2
      have hov : inRectB (rectIntersect
          (rectIntersect (r.store tid').area toReg.valid) toReg.valid) x y
          = true := by
        rw [inRectB_rectIntersect, h, hvalid]
        rfl
      simp [tileCopy, hc, imRegionPaint, hov]

/-- Witness for C4 at a concrete sink: `rHit` holds an unpainted tile at
the origin, and the request path re-queues it; the copy rule evaluated at
the point (0, 0) of that tile zero-fills. -/
theorem C4_witness :
    tilesLookup rHit.tiles ⟨0, 0, 2, 2⟩ = some 0 ∧
    tileRequest rHit ⟨0, 0, 2, 2⟩ evOk =
      (tileTouch (if !(rHit.store 0).painted || (rHit.store 0).region.invalid
                  then tileQueue rHit 0 ⟨0, 0, 2, 2⟩ evOk.bufOk else rHit) 0,
        some 0) ∧
    inRectB (rectIntersect (rHit.store 0).area outReg22.valid) 0 0 = true ∧
    (tileCopy rHit 0 outReg22).pix 0 0 =
      (if (rHit.store 0).painted && !(rHit.store 0).region.invalid
       then (rHit.store 0).region.pix 0 0 else 0) := by
  have h := C4_invalidation rHit ⟨0, 0, 2, 2⟩ evOk 0 (by decide)
  exact ⟨by decide, h.1, by decide, h.2 0 outReg22 0 0 (by decide)⟩

/-! ## Mask traversal lemmas -/

/-- Painting leaves points outside the painted rect unchanged. -/
theorem imRegionPaint_pix_out (reg : Region) (rc : Rect) (v : Nat)
    (x y : Int) (h : inRectB rc x y = false) :
    (imRegionPaint reg rc v).pix x y = reg.pix x y := by
  simp only [imRegionPaint]
  rw [if_neg]
  rw [inRectB_rectIntersect, h]
  simp

/-- Painting writes the value at points inside the rect and the region's
valid rectangle. -/
theorem imRegionPaint_pix_in (reg : Region) (rc : Rect) (v : Nat)
    (x y : Int) (h1 : inRectB rc x y = true)
    (h2 : inRectB reg.valid x y = true) :
    (imRegionPaint reg rc v).pix x y = v := by
  simp only [imRegionPaint]
  rw [if_pos]
  rw [inRectB_rectIntersect, h1, h2]
  rfl

/-- `mask_fill`'s loop never changes the output's valid rectangle. -/
theorem foldl_maskFillStep_valid (cells : List (Int × Int))
    (acc : Render × Region) :
    (cells.foldl maskFillStep acc).2.valid = acc.2.valid := by
  induction cells generalizing acc with
  | nil => rfl
  | cons c cs ih => simpa [List.foldl] using ih (maskFillStep acc c)

/-- A point missed by the areas of every remaining cell keeps its mask
value through the rest of `mask_fill`'s loop. -/
theorem foldl_maskFillStep_pix_out (r : Render) (cells : List (Int × Int)) :
    ∀ (reg : Region) (px py : Int),
      (∀ c ∈ cells,
        inRectB ⟨c.1, c.2, r.tile_width, r.tile_height⟩ px py = false) →
      ((cells.foldl maskFillStep (r, reg)).2).pix px py = reg.pix px py := by
  induction cells with
  | nil => intro reg px py _; rfl
  | cons c cs ih =>
    intro reg px py hmiss
    have hstep : maskFillStep (r, reg) c =
        (r, imRegionPaint reg ⟨c.1, c.2, r.tile_width, r.tile_height⟩
          (maskVal r ⟨c.1, c.2, r.tile_width, r.tile_height⟩)) := rfl
    rw [List.foldl_cons, hstep]
    rw [ih _ px py (fun d hd => hmiss d (List.mem_cons_of_mem c hd))]
    exact imRegionPaint_pix_out reg _ _ px py
      (hmiss c (List.mem_cons_self c cs))

/-- Through `mask_fill`'s loop, a point of the valid rect inside the area
of a traversed cell whose area is disjoint from every other traversed
cell's area ends with that cell's mask byte. -/
theorem foldl_maskFillStep_pix (r : Render) (cells : List (Int × Int)) :
    ∀ (reg : Region) (c : Int × Int), c ∈ cells →
      (∀ c' ∈ cells, c' ≠ c → ∀ qx qy : Int,
        inRectB ⟨c.1, c.2, r.tile_width, r.tile_height⟩ qx qy = true →
        inRectB ⟨c'.1, c'.2, r.tile_width, r.tile_height⟩ qx qy = false) →
      ∀ px py : Int,
        inRectB ⟨c.1, c.2, r.tile_width, r.tile_height⟩ px py = true →
        inRectB reg.valid px py = true →
        ((cells.foldl maskFillStep (r, reg)).2).pix px py =
          maskVal r ⟨c.1, c.2, r.tile_width, r.tile_height⟩ := by
  induction cells with
  | nil =>
    intro reg c hc
    cases hc
  | cons d cs ih =>
    intro reg c hc hdisj px py hpx hvalid
    have hstep : maskFillStep (r, reg) d =
        (r, imRegionPaint reg ⟨d.1, d.2, r.tile_width, r.tile_height⟩
          (maskVal r ⟨d.1, d.2, r.tile_width, r.tile_height⟩)) := rfl
    by_cases hmem : c ∈ cs
    · rw [List.foldl_cons, hstep]
      refine ih _ c hmem ?_ px py hpx ?_
      · intro c' hc' hne qx qy hq
        exact hdisj c' (List.mem_cons_of_mem d hc') hne qx qy hq
      · exact hvalid
    · have hdc : d = c := by
        rcases List.mem_cons.1 hc with h | h
        · exact h.symm
        · exact absurd h hmem
      subst hdc
      rw [List.foldl_cons, hstep]
      rw [foldl_maskFillStep_pix_out r cs _ px py ?_]
      · exact imRegionPaint_pix_in reg _ _ px py hpx hvalid
      · intro c' hc'
        have hne : c' ≠ d := fun he => hmem (he ▸ hc')
        exact hdisj c' (List.mem_cons_of_mem d hc') hne px py hpx

/-- Two distinct indices cannot place `p` in the same step-`st` interval. -/
theorem interval_index_unique (st p s : Int) (hst : 0 < st) (i j : Nat)
    (hi1 : s + i * st ≤ p) (hi2 : p < s + i * st + st)
    (hj1 : s + j * st ≤ p) (hj2 : p < s + j * st + st) : i = j := by
  have h1 : (i : Int) * st < ((j : Int) + 1) * st := by nlinarith
  have h2 : (j : Int) * st < ((i : Int) + 1) * st := by nlinarith
  have h3 : (i : Int) < (j : Int) + 1 :=
    lt_of_mul_lt_mul_right h1 (le_of_lt hst)
  have h4 : (j : Int) < (i : Int) + 1 :=
    lt_of_mul_lt_mul_right h2 (le_of_lt hst)
  omega

/-- Every traversed grid cell sits at tile-aligned offsets from the
loop's starting corner. -/
theorem sinkCells_mem (r : Render) (rc : Rect) (c : Int × Int)
    (hc : c ∈ sinkCells r rc) :
    ∃ ix iy : Nat,
      c.1 = (Int.tdiv rc.left r.tile_width) * r.tile_width
        + ix * r.tile_width ∧
      c.2 = (Int.tdiv rc.top r.tile_height) * r.tile_height
        + iy * r.tile_height := by
  simp only [sinkCells, gridCoords] at hc
  rcases List.mem_flatMap.1 hc with ⟨y, hy, hcy⟩
  rcases List.mem_map.1 hcy with ⟨x, hx, hxy⟩
  rcases List.mem_map.1 hy with ⟨iy, hiy, hyv⟩
  rcases List.mem_map.1 hx with ⟨ix, hix, hxv⟩
  refine ⟨ix, iy, ?_, ?_⟩
  · rw [← hxy]
    exact hxv.symm
  · rw [← hxy]
    exact hyv.symm

/-- The areas of two distinct traversed grid cells are disjoint. -/
theorem sinkCells_area_disjoint (r : Render) (rc : Rect)
    (htw : 0 < r.tile_width) (hth : 0 < r.tile_height)
    (c c' : Int × Int) (hc : c ∈ sinkCells r rc) (hc' : c' ∈ sinkCells r rc)
    (hne : c' ≠ c) (qx qy : Int)
    (hq : inRectB ⟨c.1, c.2, r.tile_width, r.tile_height⟩ qx qy = true) :
    inRectB ⟨c'.1, c'.2, r.tile_width, r.tile_height⟩ qx qy = false := by
  rcases sinkCells_mem r rc c hc with ⟨ix, iy, hx, hy⟩
  rcases sinkCells_mem r rc c' hc' with ⟨ix', iy', hx', hy'⟩
  by_contra hcon
  rw [Bool.not_eq_false] at hcon
  simp only [inRectB, Rect.right, Rect.bottom, Bool.and_eq_true,
    decide_eq_true_eq] at hq hcon
  have hxx : ix = ix' := by
    refine interval_index_unique r.tile_width qx
      ((Int.tdiv rc.left r.tile_width) * r.tile_width) htw ix ix' ?_ ?_ ?_ ?_
    · rw [← hx]
      exact hq.1.1.1
    · rw [← hx]
      exact hq.1.1.2
    · rw [← hx']
      exact hcon.1.1.1
    · rw [← hx']
      exact hcon.1.1.2
  have hyy : iy = iy' := by
    refine interval_index_unique r.tile_height qy
      ((Int.tdiv rc.top r.tile_height) * r.tile_height) hth iy iy' ?_ ?_ ?_ ?_
    · rw [← hy]
      exact hq.1.2
    · rw [← hy]
      exact hq.2
    · rw [← hy']
      exact hcon.1.2
    · rw [← hy']
      exact hcon.2
  apply hne
  have h1 : c'.1 = c.1 := by
    rw [hx, hx', hxx]
  have h2 : c'.2 = c.2 := by
    rw [hy, hy', hyy]
  exact Prod.ext h1 h2

/-! ## C7 -/

/-- C7: for every grid cell traversed by `mask_fill`, every point of that
cell's area inside the output's valid rect ends with mask byte 255 iff a
tile exists at that grid position, is painted and its region's `invalid`
flag is clear, and 0 in every other case (no tile, unpainted, or
invalid) — `maskVal` is literally that rule. -/
theorem C7_mask_semantics (r : Render) (outReg : Region)
    (htw : 0 < r.tile_width) (hth : 0 < r.tile_height) :
    ∀ c ∈ sinkCells r outReg.valid, ∀ px py : Int,
      inRectB ⟨c.1, c.2, r.tile_width, r.tile_height⟩ px py = true →
      inRectB outReg.valid px py = true →
      ((maskFill r outReg).2).pix px py =
        (match tilesLookup r.tiles ⟨c.1, c.2, r.tile_width, r.tile_height⟩
            with
         | some tid =>
           if (r.store tid).painted && !(r.store tid).region.invalid
           then 255 else 0
         | none => 0) := by
  intro c hc px py hpx hvalid
  show ((maskFill r outReg).2).pix px py =
    maskVal r ⟨c.1, c.2, r.tile_width, r.tile_height⟩
  unfold maskFill
  refine foldl_maskFillStep_pix r (sinkCells r outReg.valid) outReg c hc
    ?_ px py hpx hvalid
  intro c' hc' hne qx qy hq
  exact sinkCells_area_disjoint r outReg.valid htw hth c c' hc hc' hne
    qx qy hq

/-- Witness for C7 at a concrete sink: `rHit` holds a single unpainted
tile at the origin; the mask byte over that cell is 0. -/
theorem C7_witness :
    (0 : Int) < rHit.tile_width ∧ (0 : Int) < rHit.tile_height ∧
    ((0 : Int), (0 : Int)) ∈ sinkCells rHit outReg22.valid ∧
    ((maskFill rHit outReg22).2).pix 0 0 =
      (match tilesLookup rHit.tiles ⟨0, 0, rHit.tile_width, rHit.tile_height⟩
          with
       | some tid =>
         if (rHit.store tid).painted && !(rHit.store tid).region.invalid
         then 255 else 0
       | none => 0) := by
  refine ⟨by decide, by decide, by decide, ?_⟩
  exact C7_mask_semantics rHit outReg22 (by decide) (by decide)
    (0, 0) (by decide) 0 0 (by decide) (by decide)

/-- Witness for the amended C5 at concrete inputs: one put into the empty
queue, the put characterisation for a fresh sink, and the get of a
singleton queue. -/
theorem C5_amended_witness :
    (([SchedOp.put 0 true].foldl (execSched prioEq) schedInit)).dirtyAll.Pairwise
      (fun a b => prioEq b ≤ prioEq a) ∧
    (renderDirtyPut prioEq schedInit 3 true).dirtyAll = [] ++ 3 :: [] ∧
    (renderDirtyGet { dirtyAll := [4], sem := 1, resched := true }).2 =
      some 4 := by
  refine ⟨(C5_amended_scheduler_order prioEq).1 [SchedOp.put 0 true], ?_, ?_⟩
  · have h := (C5_amended_scheduler_order prioEq).2.1 schedInit 3
      (by simp [schedInit]) (by simp [schedInit])
    simpa [schedInit] using h
  · exact ((C5_amended_scheduler_order prioEq).2.2
      { dirtyAll := [4], sem := 1, resched := true } 4 [] rfl).1

end SinkScreen
